import Mathlib

/-!
Verification of the betting and payout engine of an American Roulette
implementation: a shallow embedding of the core modules (the roulette
configuration, the payout calculator, the bet manager and the game state)
together with proofs of the documented properties.

Conventions of the embedding:
* JavaScript numbers that hold currency amounts or payout multipliers are
  modelled as exact rationals; the NaN guard of the source
  (typeof/isNaN in validateBetAmount) has no counterpart since NaN is not
  a rational.
* A wheel slot is either an integer label (the JS number 0..36) or the
  distinguished double-zero label (the JS string value).
* Fallible operations return a discriminated result, mirroring the
  valid/error and success/error record shapes of the source.
-/

/-- A wheel slot value as it appears in the JS arrays: either a JS number
(integer label) or the double-zero string label. -/
inductive Slot where
  | num (n : ℤ)
  | doubleZero
deriving DecidableEq

/-- One entry of RouletteConfig.betTypes: display name, payout multiplier
and required number count (the display-only description field is omitted). -/
structure BetTypeInfo where
  name : String
  payout : ℚ
  numberCount : ℕ
deriving DecidableEq

/-- RouletteConfig.betTypes: the catalog lookup, `none` when the key is
absent from the object. -/
def betTypes (type : String) : Option BetTypeInfo :=
  match type with
  | "straight" => some ⟨"Straight Up", 35, 1⟩
  | "split" => some ⟨"Split", 17, 2⟩
  | "street" => some ⟨"Street", 11, 3⟩
  | "corner" => some ⟨"Corner", 8, 4⟩
  | "line" => some ⟨"Line", 5, 6⟩
  | "dozen" => some ⟨"Dozen", 2, 12⟩
  | "column" => some ⟨"Column", 2, 12⟩
  | "red" => some ⟨"Red", 1, 18⟩
  | "black" => some ⟨"Black", 1, 18⟩
  | "even" => some ⟨"Even", 1, 18⟩
  | "odd" => some ⟨"Odd", 1, 18⟩
  | "low" => some ⟨"Low (1-18)", 1, 18⟩
  | "high" => some ⟨"High (19-36)", 1, 18⟩
  | _ => none

/-- RouletteConfig.wheelOrder: the 38 slot labels in wheel order (0, then
the clockwise sequence, with the double-zero string in the middle). -/
def wheelOrder : List Slot :=
  [.num 0, .num 28, .num 9, .num 26, .num 30, .num 11, .num 7, .num 20,
   .num 32, .num 17, .num 5, .num 22, .num 34, .num 15, .num 3, .num 24,
   .num 36, .num 13, .num 1, .doubleZero, .num 27, .num 10, .num 25,
   .num 29, .num 12, .num 8, .num 19, .num 31, .num 18, .num 6, .num 21,
   .num 33, .num 16, .num 4, .num 23, .num 35, .num 14, .num 2]

/-- RouletteConfig.limits.minBet. -/
def minBet : ℚ := 1

/-- RouletteConfig.limits.maxBet. -/
def maxBet : ℚ := 1000

/-- RouletteConfig.limits.tableMax. -/
def tableMax : ℚ := 10000

/-- RouletteConfig.defaultBalance. -/
def defaultBalance : ℚ := 1000

/-- RouletteConfig.history.maxEntries. -/
def maxEntries : ℕ := 50

/-- A placed bet as used by the payout and ledger logic: type key, covered
slots and stake amount (the id, position and timestamp fields of the source
are display bookkeeping and take no part in the verified operations). -/
structure Bet where
  type : String
  numbers : List Slot
  amount : ℚ
deriving DecidableEq

/-- One history entry; only its recorded bets participate in the ledger
operations (the serialized timestamp, winning slot and totals are carried
alongside in the source but never read by them). -/
structure HistoryEntry where
  bets : List Bet
deriving DecidableEq

/-- The result record of calculateBetPayout.  The payoutMultiplier field
is present only on the winning branch in the source, hence an Option. -/
structure PayoutResult where
  isWinner : Bool
  payout : ℚ
  winAmount : ℚ
  totalReturn : ℚ
  originalBet : ℚ
  payoutMultiplier : Option ℚ
deriving DecidableEq

/-- calculateBetPayout from the payout calculator: membership of the spin
number in the covered numbers decides the win; a missing catalog entry
contributes a zero multiplier. -/
def calculateBetPayout (bet : Bet) (spinNumber : Slot) : PayoutResult :=
  if bet.numbers.contains spinNumber then
    let payoutMultiplier : ℚ :=
      match betTypes bet.type with
      | some t => t.payout
      | none => 0
    let payout := bet.amount * payoutMultiplier
    let totalReturn := bet.amount + payout
    { isWinner := true, payout := payout, winAmount := payout,
      totalReturn := totalReturn, originalBet := bet.amount,
      payoutMultiplier := some payoutMultiplier }
  else
    { isWinner := false, payout := 0, winAmount := 0, totalReturn := 0,
      originalBet := bet.amount, payoutMultiplier := none }

/-- calculateHouseEdge from the payout calculator, over exact rationals. -/
def calculateHouseEdge (betType : String) : ℚ :=
  match betTypes betType with
  | none => 0
  | some t =>
    let totalNumbers : ℚ := 38
    let numbersCovered : ℚ := t.numberCount
    let payout := t.payout
    let trueOdds := (totalNumbers - numbersCovered) / numbersCovered
    ((trueOdds - payout) / (trueOdds + 1)) * 100

/-- areAllIntegers1To36 applied to one slot value: a JS number that is an
integer between 1 and 36 (the double-zero string fails the typeof check;
the integer embedding makes Number.isInteger trivially true). -/
def slotInt1To36 : Slot → Bool
  | .num n => decide (1 ≤ n) && decide (n ≤ 36)
  | .doubleZero => false

/-- areAllIntegers1To36 from bet-manager. -/
def areAllIntegers1To36 (nums : List Slot) : Bool :=
  nums.all slotInt1To36

/-- The underlying integer of each slot, used for the numeric sort of the
split and corner validators.  Both callers guard with areAllIntegers1To36,
so the double-zero case is unreachable there; it is mapped to 0. -/
def slotsToInts (nums : List Slot) : List ℤ :=
  nums.map (fun s => match s with | .num n => n | .doubleZero => 0)

/-- validateSplitNumbers from bet-manager, as the boolean validity of the
result record.  The source sorts numerically and destructures the first
two entries; with fewer than two entries the JS comparisons against
undefined are false, hence the catch-all branch. -/
def validateSplitNumbers (nums : List Slot) : Bool :=
  if areAllIntegers1To36 nums then
    match List.insertionSort (· ≤ ·) (slotsToInts nums) with
    | a :: b :: _ => ((b == a + 1) && (a % 3 != 0)) || (b == a + 3)
    | _ => false
  else false

/-- validateCornerNumbers from bet-manager, as the boolean validity of the
result record.  The expected square is compared entrywise against the
first four sorted entries (indexes beyond the array compare as undefined
and fail), which is the entrywise equality of the four-element take; an
empty array fails the comparison at index 1. -/
def validateCornerNumbers (nums : List Slot) : Bool :=
  if areAllIntegers1To36 nums then
    match List.insertionSort (· ≤ ·) (slotsToInts nums) with
    | [] => false
    | n :: rest => if (n % 3 == 0) || decide (32 < n) then false
        else (n :: rest).take 4 == [n, n + 1, n + 3, n + 4]
  else false

/-- The rejection reasons of the validation pipeline, one constructor per
distinct check of validateBet, validateBetAmount, validateBalance and
validateTableMax (the source reports each as an error-message string; the
empty-array and unknown-label messages both belong to the invalid-slots
check). -/
inductive BetError where
  | unknownBetType
  | invalidSlots
  | slotCountMismatch
  | duplicateSlots
  | invalidGeometry
  | amountOutOfRange
  | insufficientBalance
  | tableMaxExceeded
deriving DecidableEq

/-- validateBet from bet-manager: type lookup, non-empty numbers, wheel
label membership, number count, uniqueness via Set dedup, then the split
and corner geometry checks. -/
def validateBet (type : String) (numbers : List Slot) : Option BetError :=
  match betTypes type with
  | none => some .unknownBetType
  | some betType =>
    if numbers.isEmpty then some .invalidSlots
    else if 0 < (numbers.filter (fun n => !(wheelOrder.contains n))).length then
      some .invalidSlots
    else if numbers.length ≠ betType.numberCount then some .slotCountMismatch
    else if numbers.dedup.length ≠ numbers.length then some .duplicateSlots
    else if type == "split" && !(validateSplitNumbers numbers) then
      some .invalidGeometry
    else if type == "corner" && !(validateCornerNumbers numbers) then
      some .invalidGeometry
    else none

/-- validateBetAmount from bet-manager (the NaN guard is vacuous over ℚ). -/
def validateBetAmount (amount : ℚ) : Option BetError :=
  if amount < minBet then some .amountOutOfRange
  else if maxBet < amount then some .amountOutOfRange
  else none

/-- validateBalance from bet-manager: the amount may not exceed the
available balance, i.e. balance minus the total of the current bets. -/
def validateBalance (amount totalCurrentBets balance : ℚ) : Option BetError :=
  if balance - totalCurrentBets < amount then some .insufficientBalance
  else none

/-- validateTableMax from bet-manager. -/
def validateTableMax (amount totalCurrentBets : ℚ) : Option BetError :=
  if tableMax < totalCurrentBets + amount then some .tableMaxExceeded
  else none

/-- getTotalBetAmount from game-state: a left fold of the amounts with
initial accumulator 0, as the JS reduce. -/
def totalBetAmount (bets : List Bet) : ℚ :=
  bets.foldl (fun total bet => total + bet.amount) 0

/-- The mutable state owned by the game-state singleton, restricted to the
fields the ledger operations read and write. -/
structure GState where
  balance : ℚ
  currentBets : List Bet
  history : List HistoryEntry
deriving DecidableEq

/-- The validation pipeline of placeBet: validateBet, then
validateBetAmount, then validateBalance, then validateTableMax, with the
first failure short-circuiting. -/
def placeBetCheck (type : String) (numbers : List Slot) (amount totalCurrentBets balance : ℚ) :
    Option BetError :=
  match validateBet type numbers with
  | some e => some e
  | none =>
    match validateBetAmount amount with
    | some e => some e
    | none =>
      match validateBalance amount totalCurrentBets balance with
      | some e => some e
      | none => validateTableMax amount totalCurrentBets

/-- placeBet from bet-manager combined with gameState.placeBet: on
acceptance a bet record is appended to the current bets; on rejection the
state is untouched and the specific error is returned. -/
def placeBet (st : GState) (type : String) (numbers : List Slot) (amount : ℚ) :
    GState × Except BetError Bet :=
  match placeBetCheck type numbers amount (totalBetAmount st.currentBets) st.balance with
  | some e => (st, .error e)
  | none =>
    let bet : Bet := ⟨type, numbers, amount⟩
    ({ st with currentBets := st.currentBets ++ [bet] }, .ok bet)

/-- The re-placement loop shared by repeatLastBets and doubleAllBets: each
bet of the list is submitted through placeBet against the evolving state,
successes are collected in order and failures are skipped. -/
def placeBets (st : GState) (bs : List Bet) : GState × List Bet :=
  match bs with
  | [] => (st, [])
  | b :: rest =>
    match placeBet st b.type b.numbers b.amount with
    | (st1, .ok placed) =>
      let (st2, placedRest) := placeBets st1 rest
      (st2, placed :: placedRest)
    | (st1, .error _) =>
      placeBets st1 rest

/-- The failure reasons of the bulk ledger operations, one constructor per
error-message string of repeatLastBets and doubleAllBets. -/
inductive LedgerError where
  | noBetsToDouble
  | insufficientToDouble
  | noHistoryToRepeat
  | noBetsInLastSpin
  | insufficientToRepeat
deriving DecidableEq

/-- canAffordBet from bet-manager. -/
def canAffordBet (st : GState) (amount : ℚ) : Bool :=
  decide (amount ≤ st.balance - totalBetAmount st.currentBets)

/-- doubleAllBets from bet-manager: empty-ledger check, affordability
pre-check on the combined amount, then one placeBet per snapshot bet. -/
def doubleAllBets (st : GState) : GState × Except LedgerError (List Bet) :=
  let currentBets := st.currentBets
  if currentBets.isEmpty then (st, .error .noBetsToDouble)
  else
    let totalAmount := totalBetAmount currentBets
    if canAffordBet st totalAmount then
      let (st1, placed) := placeBets st currentBets
      (st1, .ok placed)
    else (st, .error .insufficientToDouble)

/-- repeatLastBets from bet-manager: no-history and empty-entry checks,
affordability pre-check (against the ledger still holding the current
bets), then clearAllBets followed by one placeBet per recorded bet. -/
def repeatLastBets (st : GState) : GState × Except LedgerError (List Bet) :=
  match st.history with
  | [] => (st, .error .noHistoryToRepeat)
  | lastSpin :: _ =>
    let betsToRepeat := lastSpin.bets
    if betsToRepeat.isEmpty then (st, .error .noBetsInLastSpin)
    else
      let totalAmount := totalBetAmount betsToRepeat
      if canAffordBet st totalAmount then
        let cleared := { st with currentBets := [] }
        let (st1, placed) := placeBets cleared betsToRepeat
        (st1, .ok placed)
      else (st, .error .insufficientToRepeat)

/-- The balance mutators of the game state: updateBalance (set), the
addToBalance and subtractFromBalance wrappers, and resetBalance. -/
inductive BalanceMutation where
  | set (amount : ℚ)
  | add (amount : ℚ)
  | sub (amount : ℚ)
  | reset

/-- One balance mutation as performed by GameState.updateBalance and its
wrappers: every path stores Math.max(0, requested value). -/
def applyBalanceMutation (balance : ℚ) : BalanceMutation → ℚ
  | .set amount => max 0 amount
  | .add amount => max 0 (balance + amount)
  | .sub amount => max 0 (balance - amount)
  | .reset => max 0 defaultBalance

/-- GameState.addToHistory: unshift the new result, then truncate to the
configured maximum when the bound is exceeded. -/
def addToHistory (history : List HistoryEntry) (result : HistoryEntry) :
    List HistoryEntry :=
  let grown := result :: history
  if maxEntries < grown.length then grown.take maxEntries else grown

/-- The unfloored arithmetic result a balance mutation asks for, before
the Math.max(0, _) floor is applied (spec side of the flooring property). -/
def rawBalanceResult (balance : ℚ) : BalanceMutation → ℚ
  | .set amount => amount
  | .add amount => balance + amount
  | .sub amount => balance - amount
  | .reset => defaultBalance

/-- Claim C1: resolving a single bet returns won iff the winning slot is
among the covered slots; a winning bet pays the stake times the catalog
multiplier of its bet type and returns stake plus payout, a losing bet
returns won false with zero payout and zero total return. -/
theorem calculateBetPayout_correct (b : Bet) (w : Slot) (info : BetTypeInfo)
    (hcat : betTypes b.type = some info) :
    ((calculateBetPayout b w).isWinner = true ↔ w ∈ b.numbers) ∧
    (w ∈ b.numbers →
      (calculateBetPayout b w).payout = b.amount * info.payout ∧
      (calculateBetPayout b w).totalReturn = b.amount + b.amount * info.payout) ∧
    (w ∉ b.numbers →
      (calculateBetPayout b w).isWinner = false ∧
      (calculateBetPayout b w).payout = 0 ∧
      (calculateBetPayout b w).totalReturn = 0) := by
  by_cases hm : w ∈ b.numbers
  · have hc : b.numbers.contains w = true := List.elem_iff.mpr hm
    simp [calculateBetPayout, hc, hcat, hm]
  · have hc : b.numbers.contains w = false := by
      simp only [Bool.eq_false_iff, ne_eq]
      intro h
      exact hm (List.elem_iff.mp h)
    simp [calculateBetPayout, hc, hm]

/-- A straight bet of 10 on slot 17, used as the concrete instance of the
payout claims. -/
def betStraight17 : Bet := ⟨"straight", [.num 17], 10⟩

/-- Witness for the previous theorem at the straight bet of 10 on 17 with
winning slot 17: payout 350 and total return 360. -/
theorem calculateBetPayout_correct_witness :
    (calculateBetPayout betStraight17 (.num 17)).payout = 350 ∧
    (calculateBetPayout betStraight17 (.num 17)).totalReturn = 360 := by
  have h := calculateBetPayout_correct betStraight17 (.num 17)
      ⟨"Straight Up", 35, 1⟩ rfl
  have hm : Slot.num 17 ∈ betStraight17.numbers := by
    simp [betStraight17]
  obtain ⟨-, hwin, -⟩ := h
  obtain ⟨h1, h2⟩ := hwin hm
  refine ⟨?_, ?_⟩
  · rw [h1]; norm_num [betStraight17]
  · rw [h2]; norm_num [betStraight17]

/-- Claim C10: a winning bet whose type key is absent from the catalog is
resolved without error, with a zero multiplier: won true, payout 0, total
return equal to the stake alone. -/
theorem calculateBetPayout_unknown_type (b : Bet) (w : Slot)
    (hcat : betTypes b.type = none) (hm : w ∈ b.numbers) :
    (calculateBetPayout b w).isWinner = true ∧
    (calculateBetPayout b w).payout = 0 ∧
    (calculateBetPayout b w).totalReturn = b.amount ∧
    (calculateBetPayout b w).payoutMultiplier = some 0 := by
  have hc : b.numbers.contains w = true := List.elem_iff.mpr hm
  simp [calculateBetPayout, hc, hcat, hm]

/-- A winning bet with a type key outside the catalog. -/
def betUnknownType : Bet := ⟨"topline", [.num 0, .doubleZero, .num 1, .num 2, .num 3], 25⟩

/-- Witness for the previous theorem: the unknown-type bet of 25 on the
top line, resolved at winning slot 2, returns only its stake. -/
theorem calculateBetPayout_unknown_type_witness :
    (calculateBetPayout betUnknownType (.num 2)).isWinner = true ∧
    (calculateBetPayout betUnknownType (.num 2)).payout = 0 ∧
    (calculateBetPayout betUnknownType (.num 2)).totalReturn = 25 := by
  have h := calculateBetPayout_unknown_type betUnknownType (.num 2) rfl
      (by simp [betUnknownType])
  exact ⟨h.1, h.2.1, h.2.2.1⟩

/-- The house-edge value the claims require of a catalog bet type: exactly
200/38 percent, which lies within 0.01 of 5.26. -/
def edgeOK (t : String) : Prop :=
  calculateHouseEdge t = 200 / 38 ∧ |calculateHouseEdge t - 526 / 100| ≤ 1 / 100

/-- Claim C7: the house-edge computation yields exactly 200/38 percent,
hence approximately 5.26 within 0.01, for every one of the thirteen
catalog bet types. -/
theorem calculateHouseEdge_all_types :
    edgeOK ("straight") ∧ edgeOK ("split") ∧ edgeOK ("street") ∧ edgeOK ("corner") ∧
    edgeOK ("line") ∧ edgeOK ("dozen") ∧ edgeOK ("column") ∧ edgeOK ("red") ∧
    edgeOK ("black") ∧ edgeOK ("even") ∧ edgeOK ("odd") ∧ edgeOK ("low") ∧
    edgeOK ("high") := by
  repeat constructor
  all_goals norm_num [edgeOK, calculateHouseEdge, betTypes, abs_le]

/-- Claim C8: every balance mutation stores the floor of the requested
arithmetic result at zero, so after any sequence of mutations every
resulting balance value is nonnegative. -/
theorem balance_never_negative (init : ℚ) (ms : List BalanceMutation)
    (m : BalanceMutation) :
    0 ≤ List.foldl applyBalanceMutation init (ms ++ [m]) ∧
    List.foldl applyBalanceMutation init (ms ++ [m]) =
      max 0 (rawBalanceResult (List.foldl applyBalanceMutation init ms) m) := by
  rw [List.foldl_append]
  constructor
  · cases m <;> simp [applyBalanceMutation]
  · cases m <;> rfl

/-- Claim C9: appending to the round history puts the new entry first,
keeps at most maxEntries (fifty) entries, and on overflow keeps exactly
the newest fifty, i.e. the result is always the fifty-entry front of the
grown list. -/
theorem addToHistory_bounded_newest_first (h : List HistoryEntry)
    (e : HistoryEntry) :
    (addToHistory h e).head? = some e ∧
    (addToHistory h e).length = min (h.length + 1) maxEntries ∧
    (addToHistory h e).length ≤ maxEntries ∧
    addToHistory h e = (e :: h).take maxEntries ∧
    maxEntries = 50 := by
  unfold addToHistory
  by_cases hl : maxEntries < (e :: h).length
  · rw [if_pos hl]
    have hlen : h.length + 1 = (e :: h).length := rfl
    refine ⟨?_, ?_, ?_, rfl, rfl⟩
    · have : maxEntries = 49 + 1 := rfl
      rw [this, List.take_succ_cons]
      rfl
    · rw [List.length_take]
      simp only [List.length_cons] at hl ⊢
      omega
    · rw [List.length_take]
      omega
  · rw [if_neg hl]
    simp only [List.length_cons, not_lt] at hl
    refine ⟨rfl, ?_, ?_, ?_, rfl⟩
    · simp only [List.length_cons]
      omega
    · simp only [List.length_cons]
      omega
    · rw [List.take_of_length_le]
      simpa using hl

/-- The split-geometry predicate as the specification words it: both
numbers are integers in 1..36 and, after sorting so that a < b, either b
is a + 1 with a not in the rightmost column (a mod 3 nonzero) or b is
a + 3. -/
def specSplitValid (a b : ℤ) : Prop :=
  1 ≤ a ∧ a ≤ 36 ∧ 1 ≤ b ∧ b ≤ 36 ∧
  ((max a b = min a b + 1 ∧ min a b % 3 ≠ 0) ∨ max a b = min a b + 3)

/-- The corner-geometry predicate as the specification words it: all four
numbers are integers in 1..36 and, with n their minimum, n mod 3 is
nonzero, n is at most 32, and the set is exactly the square
n, n+1, n+3, n+4. -/
def specCornerValid (a b c d : ℤ) : Prop :=
  (1 ≤ a ∧ a ≤ 36) ∧ (1 ≤ b ∧ b ≤ 36) ∧ (1 ≤ c ∧ c ≤ 36) ∧ (1 ≤ d ∧ d ≤ 36) ∧
  min (min a b) (min c d) % 3 ≠ 0 ∧ min (min a b) (min c d) ≤ 32 ∧
  ({a, b, c, d} : Finset ℤ) =
    {min (min a b) (min c d), min (min a b) (min c d) + 1,
     min (min a b) (min c d) + 3, min (min a b) (min c d) + 4}

/-- Sorting a two-element list orders it by the comparison. -/
theorem insertionSort_pair (a b : ℤ) :
    List.insertionSort (· ≤ ·) [a, b] = if a ≤ b then [a, b] else [b, a] := by
  by_cases h : a ≤ b <;> simp [List.insertionSort, List.orderedInsert, h]

/-- Equality of a four-element set literal with the square set, unfolded
to memberships. -/
theorem finset_quad_eq_iff (a b c d n : ℤ) :
    ({a, b, c, d} : Finset ℤ) = {n, n + 1, n + 3, n + 4} ↔
    (((a = n ∨ a = n + 1 ∨ a = n + 3 ∨ a = n + 4) ∧
      (b = n ∨ b = n + 1 ∨ b = n + 3 ∨ b = n + 4) ∧
      (c = n ∨ c = n + 1 ∨ c = n + 3 ∨ c = n + 4) ∧
      (d = n ∨ d = n + 1 ∨ d = n + 3 ∨ d = n + 4)) ∧
     (n = a ∨ n = b ∨ n = c ∨ n = d) ∧
     (n + 1 = a ∨ n + 1 = b ∨ n + 1 = c ∨ n + 1 = d) ∧
     (n + 3 = a ∨ n + 3 = b ∨ n + 3 = c ∨ n + 3 = d) ∧
     (n + 4 = a ∨ n + 4 = b ∨ n + 4 = c ∨ n + 4 = d)) := by
  rw [Finset.Subset.antisymm_iff]
  simp only [Finset.insert_subset_iff, Finset.singleton_subset_iff, Finset.mem_insert,
    Finset.mem_singleton]

/-- The split validator agrees with the specification predicate on every
pair of integer slots. -/
theorem validateSplitNumbers_pair (a b : ℤ) :
    validateSplitNumbers [.num a, .num b] = true ↔ specSplitValid a b := by
  rcases le_total a b with hab | hab
  · rw [specSplitValid, min_eq_left hab, max_eq_right hab]
    simp only [validateSplitNumbers, areAllIntegers1To36, slotsToInts, slotInt1To36,
      List.all_cons, List.all_nil, List.map_cons, List.map_nil, insertionSort_pair,
      if_pos hab]
    split_ifs with h1 <;>
      simp only [Bool.and_eq_true, decide_eq_true_eq, Bool.and_true, Bool.true_and,
        Bool.or_eq_true, beq_iff_eq, bne_iff_ne, ne_eq, false_iff, not_and, not_or] at h1 ⊢ <;>
      omega
  · rw [specSplitValid, min_eq_right hab, max_eq_left hab]
    simp only [validateSplitNumbers, areAllIntegers1To36, slotsToInts, slotInt1To36,
      List.all_cons, List.all_nil, List.map_cons, List.map_nil, insertionSort_pair]
    by_cases hba : a ≤ b
    · have heq : a = b := le_antisymm hba hab
      subst heq
      rw [if_pos le_rfl]
      split_ifs with h1 <;>
        simp only [Bool.and_eq_true, decide_eq_true_eq, Bool.and_true, Bool.true_and,
          Bool.or_eq_true, beq_iff_eq, bne_iff_ne, ne_eq, false_iff, not_and, not_or] at h1 ⊢ <;>
        omega
    · rw [if_neg hba]
      split_ifs with h1 <;>
        simp only [Bool.and_eq_true, decide_eq_true_eq, Bool.and_true, Bool.true_and,
          Bool.or_eq_true, beq_iff_eq, bne_iff_ne, ne_eq, false_iff, not_and, not_or] at h1 ⊢ <;>
        omega

/-- Any proposed split touching the zero or double-zero label fails the
integer range guard and is rejected. -/
theorem validateSplitNumbers_zeros (nums : List Slot)
    (h : Slot.doubleZero ∈ nums ∨ Slot.num 0 ∈ nums) :
    validateSplitNumbers nums = false := by
  have hall : areAllIntegers1To36 nums = false := by
    apply Bool.eq_false_iff.mpr
    intro hcontra
    rcases h with h | h
    · have := List.all_eq_true.mp hcontra Slot.doubleZero h
      simp [slotInt1To36] at this
    · have := List.all_eq_true.mp hcontra (Slot.num 0) h
      simp [slotInt1To36] at this
  simp [validateSplitNumbers, hall]

set_option maxHeartbeats 800000 in
/-- The corner validator agrees with the specification predicate on every
four integer slots.  The proof works through the permutation and
sortedness of the insertion sort rather than unfolding it. -/
theorem validateCornerNumbers_quad (a b c d : ℤ) :
    validateCornerNumbers [.num a, .num b, .num c, .num d] = true ↔
    specCornerValid a b c d := by
  obtain ⟨hna, hnb, hnc, hnd, hns⟩ :
      min (min a b) (min c d) ≤ a ∧ min (min a b) (min c d) ≤ b ∧
      min (min a b) (min c d) ≤ c ∧ min (min a b) (min c d) ≤ d ∧
      (min (min a b) (min c d) = a ∨ min (min a b) (min c d) = b ∨
       min (min a b) (min c d) = c ∨ min (min a b) (min c d) = d) :=
    ⟨by omega, by omega, by omega, by omega, by omega⟩
  rw [specCornerValid, finset_quad_eq_iff]
  generalize min (min a b) (min c d) = n at hna hnb hnc hnd hns ⊢
  have hall : areAllIntegers1To36 [Slot.num a, Slot.num b, Slot.num c, Slot.num d] = true ↔
      ((1 ≤ a ∧ a ≤ 36) ∧ (1 ≤ b ∧ b ≤ 36) ∧ (1 ≤ c ∧ c ≤ 36) ∧ (1 ≤ d ∧ d ≤ 36)) := by
    simp [areAllIntegers1To36, slotInt1To36]
  by_cases hrange :
      (1 ≤ a ∧ a ≤ 36) ∧ (1 ≤ b ∧ b ≤ 36) ∧ (1 ≤ c ∧ c ≤ 36) ∧ (1 ≤ d ∧ d ≤ 36)
  · have hperm : (List.insertionSort (· ≤ ·) [a, b, c, d]).Perm [a, b, c, d] :=
      List.perm_insertionSort _ _
    have hsort : List.Sorted (· ≤ ·) (List.insertionSort (· ≤ ·) [a, b, c, d]) :=
      List.sorted_insertionSort _ _
    have hlen : (List.insertionSort (· ≤ ·) [a, b, c, d]).length = 4 := by
      rw [hperm.length_eq]; rfl
    unfold validateCornerNumbers
    rw [show slotsToInts [Slot.num a, Slot.num b, Slot.num c, Slot.num d] = [a, b, c, d]
      from rfl, if_pos (hall.mpr hrange)]
    generalize hseq : List.insertionSort (· ≤ ·) [a, b, c, d] = s at hperm hsort hlen ⊢
    obtain ⟨x, y, z, w, rfl⟩ : ∃ x y z w, s = [x, y, z, w] := by
      match s, hlen with
      | [x, y, z, w], _ => exact ⟨x, y, z, w, rfl⟩
    have hmema : a = x ∨ a = y ∨ a = z ∨ a = w := by
      have h := (hperm.mem_iff (a := a)).mpr (by simp)
      simpa using h
    have hmemb : b = x ∨ b = y ∨ b = z ∨ b = w := by
      have h := (hperm.mem_iff (a := b)).mpr (by simp)
      simpa using h
    have hmemc : c = x ∨ c = y ∨ c = z ∨ c = w := by
      have h := (hperm.mem_iff (a := c)).mpr (by simp)
      simpa using h
    have hmemd : d = x ∨ d = y ∨ d = z ∨ d = w := by
      have h := (hperm.mem_iff (a := d)).mpr (by simp)
      simpa using h
    have hmx : x = a ∨ x = b ∨ x = c ∨ x = d := by
      have h := (hperm.mem_iff (a := x)).mp (by simp)
      simpa using h
    have hmy : y = a ∨ y = b ∨ y = c ∨ y = d := by
      have h := (hperm.mem_iff (a := y)).mp (by simp)
      simpa using h
    have hmz : z = a ∨ z = b ∨ z = c ∨ z = d := by
      have h := (hperm.mem_iff (a := z)).mp (by simp)
      simpa using h
    have hmw : w = a ∨ w = b ∨ w = c ∨ w = d := by
      have h := (hperm.mem_iff (a := w)).mp (by simp)
      simpa using h
    obtain ⟨hc1, hc2, hc3⟩ : x ≤ y ∧ y ≤ z ∧ z ≤ w := by
      simp only [List.sorted_cons, List.mem_cons, List.mem_singleton,
        List.not_mem_nil, List.sorted_nil, and_true] at hsort
      obtain ⟨h1, h2, h3⟩ := hsort
      exact ⟨h1 y (by simp), h2 z (by simp), h3.1 w (by simp)⟩
    clear hperm hsort hall hseq hlen
    have hxa : x ≤ a := by
      clear * - hmema hc1 hc2 hc3
      rcases hmema with h | h | h | h <;> omega
    have hxb : x ≤ b := by
      clear * - hmemb hc1 hc2 hc3
      rcases hmemb with h | h | h | h <;> omega
    have hxc : x ≤ c := by
      clear * - hmemc hc1 hc2 hc3
      rcases hmemc with h | h | h | h <;> omega
    have hxd : x ≤ d := by
      clear * - hmemd hc1 hc2 hc3
      rcases hmemd with h | h | h | h <;> omega
    have hnx : n ≤ x := by
      clear * - hmx hna hnb hnc hnd
      rcases hmx with h | h | h | h <;> omega
    have hxn : x = n := by
      clear * - hns hnx hxa hxb hxc hxd
      rcases hns with h | h | h | h <;> omega
    show (if (x % 3 == 0) || decide (32 < x) then false
        else ([x, y, z, w].take 4 == [x, x + 1, x + 3, x + 4])) = true ↔ _
    have hcode : ((if (x % 3 == 0) || decide (32 < x) then false
        else ([x, y, z, w].take 4 == [x, x + 1, x + 3, x + 4])) = true) ↔
        (¬(x % 3 = 0) ∧ ¬(32 < x) ∧ y = x + 1 ∧ z = x + 3 ∧ w = x + 4) := by
      by_cases h1 : x % 3 = 0
      · simp [h1]
      · by_cases h2 : 32 < x
        · simp [h1, h2]
        · simp [h1, h2]
    rw [hcode]
    constructor
    · rintro ⟨hmod, hlt, hy, hz, hw⟩
      subst hy
      subst hz
      subst hw
      subst hxn
      exact ⟨hrange.1, hrange.2.1, hrange.2.2.1, hrange.2.2.2, hmod,
        not_lt.mp hlt, ⟨hmema, hmemb, hmemc, hmemd⟩, hmx, hmy, hmz, hmw⟩
    · rintro ⟨hr1, hr2, hr3, hr4, hmod, hle, ⟨hg1, hg2, hg3, hg4⟩, hg5, hg6, hg7, hg8⟩
      have hn1 : n + 1 = x ∨ n + 1 = y ∨ n + 1 = z ∨ n + 1 = w := by
        rcases hg6 with h | h | h | h
        · rw [h]; exact hmema
        · rw [h]; exact hmemb
        · rw [h]; exact hmemc
        · rw [h]; exact hmemd
      have hn3 : n + 3 = x ∨ n + 3 = y ∨ n + 3 = z ∨ n + 3 = w := by
        rcases hg7 with h | h | h | h
        · rw [h]; exact hmema
        · rw [h]; exact hmemb
        · rw [h]; exact hmemc
        · rw [h]; exact hmemd
      have hn4 : n + 4 = x ∨ n + 4 = y ∨ n + 4 = z ∨ n + 4 = w := by
        rcases hg8 with h | h | h | h
        · rw [h]; exact hmema
        · rw [h]; exact hmemb
        · rw [h]; exact hmemc
        · rw [h]; exact hmemd
      have hfin : y = x + 1 ∧ z = x + 3 ∧ w = x + 4 := by
        clear * - hxn hn1 hn3 hn4 hc1 hc2 hc3
        omega
      refine ⟨?_, ?_, hfin.1, hfin.2.1, hfin.2.2⟩
      · rw [hxn]; exact hmod
      · rw [hxn]; exact not_lt.mpr hle
  · unfold validateCornerNumbers
    rw [show slotsToInts [Slot.num a, Slot.num b, Slot.num c, Slot.num d] = [a, b, c, d]
      from rfl, if_neg (by rw [hall]; exact hrange)]
    constructor
    · intro habs
      exact absurd habs (by simp)
    · intro hspec
      exact absurd ⟨hspec.1, hspec.2.1, hspec.2.2.1, hspec.2.2.2.1⟩ hrange

/-- Claim C5: the split validator accepts a pair of numbers iff both are
integers in 1..36 and, after sorting so a < b, either b = a + 1 with
a mod 3 nonzero (horizontal neighbours) or b = a + 3 (vertical
neighbours); any split touching zero or double-zero is rejected; in
particular 14-17 and 17-18 are accepted while 18-19 is rejected. -/
theorem validateSplitNumbers_correct :
    (∀ a b : ℤ, validateSplitNumbers [.num a, .num b] = true ↔ specSplitValid a b) ∧
    (∀ nums : List Slot, Slot.doubleZero ∈ nums ∨ Slot.num 0 ∈ nums →
      validateSplitNumbers nums = false) ∧
    validateSplitNumbers [.num 14, .num 17] = true ∧
    validateSplitNumbers [.num 17, .num 18] = true ∧
    validateSplitNumbers [.num 18, .num 19] = false :=
  ⟨validateSplitNumbers_pair, validateSplitNumbers_zeros,
    by decide, by decide, by decide⟩

/-- Witness for the previous theorem: a split proposing double-zero with
1 is rejected, and the pair 14-17 satisfies the specification predicate. -/
theorem validateSplitNumbers_correct_witness :
    validateSplitNumbers [Slot.doubleZero, Slot.num 1] = false ∧
    specSplitValid 14 17 :=
  ⟨validateSplitNumbers_correct.2.1 [Slot.doubleZero, Slot.num 1]
      (Or.inl (by simp)),
    (validateSplitNumbers_correct.1 14 17).mp (by decide)⟩

/-- Claim C6: the corner validator accepts four numbers iff all are
integers in 1..36 and, with n the smallest, n mod 3 is nonzero, n is at
most 32, and the set is exactly the square n, n+1, n+3, n+4; in
particular 1-2-4-5 is accepted and 3-4-6-7 is rejected. -/
theorem validateCornerNumbers_correct :
    (∀ a b c d : ℤ, validateCornerNumbers [.num a, .num b, .num c, .num d] = true ↔
      specCornerValid a b c d) ∧
    validateCornerNumbers [.num 1, .num 2, .num 4, .num 5] = true ∧
    validateCornerNumbers [.num 3, .num 4, .num 6, .num 7] = false :=
  ⟨validateCornerNumbers_quad, by decide, by decide⟩

/-- Witness for the previous theorem: the accepted corner 1-2-4-5
satisfies the specification predicate. -/
theorem validateCornerNumbers_correct_witness :
    specCornerValid 1 2 4 5 :=
  (validateCornerNumbers_correct.1 1 2 4 5).mp (by decide)

/-- Relating the dedup-length test of the source to distinctness. -/
theorem dedup_length_eq_iff_nodup (nums : List Slot) :
    nums.dedup.length = nums.length ↔ nums.Nodup := by
  constructor
  · intro h
    exact List.dedup_eq_self.mp (List.Sublist.eq_of_length (List.dedup_sublist _) h)
  · intro h
    rw [List.dedup_eq_self.mpr h]

/-- Relating the invalid-label filter of the source to membership. -/
theorem filter_invalid_pos_iff (nums : List Slot) :
    0 < (nums.filter (fun n => !(wheelOrder.contains n))).length ↔
    ∃ s ∈ nums, s ∉ wheelOrder := by
  rw [List.length_pos]
  constructor
  · intro h
    obtain ⟨s, hs⟩ := List.exists_mem_of_ne_nil _ h
    have := List.mem_filter.mp hs
    refine ⟨s, this.1, ?_⟩
    intro hmem
    have hb := this.2
    rw [Bool.not_eq_eq_eq_not] at hb
    exact absurd (List.elem_iff.mpr hmem) (by simpa using hb)
  · intro ⟨s, hmem, hnot⟩
    intro hnil
    have : s ∈ nums.filter (fun n => !(wheelOrder.contains n)) := by
      rw [List.mem_filter]
      refine ⟨hmem, ?_⟩
      simp only [Bool.not_eq_true']
      apply Bool.eq_false_iff.mpr
      intro hc
      exact hnot (List.elem_iff.mp hc)
    rw [hnil] at this
    exact absurd this (List.not_mem_nil s)

/-- The first failing check, in the order the specification fixes: unknown
bet type, empty or invalid slot labels, slot count mismatch, duplicate
slots, invalid split or corner geometry, amount outside the limits,
insufficient available balance, table maximum exceeded; `none` when all
eight checks pass.  (Spec side of the validation-order property.) -/
def firstFailingCheck (type : String) (nums : List Slot)
    (amount totalCurrentBets balance : ℚ) : Option BetError :=
  match betTypes type with
  | none => some .unknownBetType
  | some bt =>
    if nums = [] ∨ ∃ s ∈ nums, s ∉ wheelOrder then some .invalidSlots
    else if nums.length ≠ bt.numberCount then some .slotCountMismatch
    else if ¬ nums.Nodup then some .duplicateSlots
    else if (type = "split" ∧ validateSplitNumbers nums = false) ∨
        (type = "corner" ∧ validateCornerNumbers nums = false) then some .invalidGeometry
    else if ¬(minBet ≤ amount ∧ amount ≤ maxBet) then some .amountOutOfRange
    else if ¬(amount ≤ balance - totalCurrentBets) then some .insufficientBalance
    else if ¬(totalCurrentBets + amount ≤ tableMax) then some .tableMaxExceeded
    else none

/-- validateBetAmount phrased through the interval of the specification. -/
theorem validateBetAmount_eq_spec (amount : ℚ) :
    validateBetAmount amount =
      if ¬(minBet ≤ amount ∧ amount ≤ maxBet) then some BetError.amountOutOfRange
      else none := by
  unfold validateBetAmount
  by_cases h1 : amount < minBet
  · have hout : ¬(minBet ≤ amount ∧ amount ≤ maxBet) := fun h => absurd h.1 (not_le.mpr h1)
    rw [if_pos h1, if_pos hout]
  · by_cases h2 : maxBet < amount
    · have hout : ¬(minBet ≤ amount ∧ amount ≤ maxBet) := fun h => absurd h.2 (not_le.mpr h2)
      rw [if_neg h1, if_pos h2, if_pos hout]
    · have hin : minBet ≤ amount ∧ amount ≤ maxBet := ⟨not_lt.mp h1, not_lt.mp h2⟩
      rw [if_neg h1, if_neg h2, if_neg (not_not_intro hin)]

/-- validateBalance phrased through the inequality of the specification. -/
theorem validateBalance_eq_spec (amount totalCurrentBets balance : ℚ) :
    validateBalance amount totalCurrentBets balance =
      if ¬(amount ≤ balance - totalCurrentBets) then some BetError.insufficientBalance
      else none := by
  unfold validateBalance
  simp only [not_le]

/-- validateTableMax phrased through the inequality of the specification. -/
theorem validateTableMax_eq_spec (amount totalCurrentBets : ℚ) :
    validateTableMax amount totalCurrentBets =
      if ¬(totalCurrentBets + amount ≤ tableMax) then some BetError.tableMaxExceeded
      else none := by
  unfold validateTableMax
  simp only [not_le]

/-- validateBet phrased through the first five checks of the
specification order. -/
theorem validateBet_eq_spec (type : String) (nums : List Slot) :
    validateBet type nums =
      (match betTypes type with
       | none => some BetError.unknownBetType
       | some bt =>
         if nums = [] ∨ ∃ s ∈ nums, s ∉ wheelOrder then some BetError.invalidSlots
         else if nums.length ≠ bt.numberCount then some BetError.slotCountMismatch
         else if ¬ nums.Nodup then some BetError.duplicateSlots
         else if (type = "split" ∧ validateSplitNumbers nums = false) ∨
             (type = "corner" ∧ validateCornerNumbers nums = false) then
           some BetError.invalidGeometry
         else none) := by
  unfold validateBet
  cases betTypes type with
  | none => rfl
  | some bt =>
    dsimp only
    have hsconv : ((type == "split" && !(validateSplitNumbers nums)) = true) ↔
        (type = "split" ∧ validateSplitNumbers nums = false) := by simp
    have hcconv : ((type == "corner" && !(validateCornerNumbers nums)) = true) ↔
        (type = "corner" ∧ validateCornerNumbers nums = false) := by simp
    by_cases hempty : nums = []
    · subst hempty
      simp
    · have hne : nums.isEmpty = false :=
        Bool.eq_false_iff.mpr (fun h => hempty (List.isEmpty_iff.mp h))
      by_cases hlab : ∃ s ∈ nums, s ∉ wheelOrder
      · have hflt : 0 < (nums.filter (fun n => !(wheelOrder.contains n))).length :=
          (filter_invalid_pos_iff nums).mpr hlab
        simp [hne, hflt, hempty, hlab]
      · have hflt : ¬ 0 < (nums.filter (fun n => !(wheelOrder.contains n))).length :=
          fun h => hlab ((filter_invalid_pos_iff nums).mp h)
        have hlab2 : ∀ s ∈ nums, s ∈ wheelOrder := by
          intro s hs
          by_contra hnot
          exact hlab ⟨s, hs, hnot⟩
        by_cases hcount : nums.length = bt.numberCount
        · by_cases hdup : nums.Nodup
          · have hdl : nums.dedup.length = nums.length :=
              (dedup_length_eq_iff_nodup nums).mpr hdup
            by_cases hsp : type = "split" ∧ validateSplitNumbers nums = false
            · have hc6 : (type == "split" && !(validateSplitNumbers nums)) = true :=
                hsconv.mpr hsp
              (simp [hne, hflt, hempty, hlab, hlab2, hcount, hdl, hdup, hc6, hsp.1, hsp.2]) <;> exact hlab2
            · have hc6 : ¬((type == "split" && !(validateSplitNumbers nums)) = true) :=
                fun h => hsp (hsconv.mp h)
              by_cases hco : type = "corner" ∧ validateCornerNumbers nums = false
              · have hc7 : (type == "corner" && !(validateCornerNumbers nums)) = true :=
                  hcconv.mpr hco
                (simp [hne, hflt, hempty, hlab, hlab2, hcount, hdl, hdup, hc6, hc7, hco.1, hco.2,
                  hsp]) <;> exact hlab2
              · have hc7 : ¬((type == "corner" && !(validateCornerNumbers nums)) = true) :=
                  fun h => hco (hcconv.mp h)
                (simp [hne, hflt, hempty, hlab, hlab2, hcount, hdl, hdup, hc6, hc7, hsp, hco]) <;> exact hlab2
          · have hdl : nums.dedup.length ≠ nums.length :=
              fun h => hdup ((dedup_length_eq_iff_nodup nums).mp h)
            have hdlB : nums.dedup.length ≠ bt.numberCount := hcount ▸ hdl
            (simp [hne, hflt, hempty, hlab, hlab2, hcount, hdl, hdlB, hdup]) <;> exact hlab2
        · (simp [hne, hflt, hempty, hlab, hlab2, hcount]) <;> exact hlab2

/-- The composed validation pipeline of placeBet computes exactly the
first failing check of the specification order. -/
theorem placeBetCheck_eq_firstFailingCheck (type : String) (nums : List Slot)
    (amount totalCurrentBets balance : ℚ) :
    placeBetCheck type nums amount totalCurrentBets balance =
    firstFailingCheck type nums amount totalCurrentBets balance := by
  unfold placeBetCheck firstFailingCheck
  rw [validateBet_eq_spec, validateBetAmount_eq_spec, validateBalance_eq_spec,
    validateTableMax_eq_spec]
  cases betTypes type with
  | none => rfl
  | some bt =>
    dsimp only
    split_ifs <;> rfl

/-- Claim C2: placing a bet against a ledger state is rejected with
exactly the reason of the first failing check in the fixed order (unknown
bet type; empty or invalid slot labels; slot count mismatch; duplicate
slots; invalid split or corner geometry; amount outside the limits;
insufficient available balance; table maximum exceeded), mutating
nothing, and is accepted, appending the bet, iff all eight checks pass. -/
theorem placeBet_validation_order (st : GState) (type : String)
    (nums : List Slot) (amount : ℚ) :
    placeBet st type nums amount =
      match firstFailingCheck type nums amount (totalBetAmount st.currentBets)
          st.balance with
      | some e => (st, Except.error e)
      | none => ({ st with currentBets := st.currentBets ++ [⟨type, nums, amount⟩] },
          Except.ok ⟨type, nums, amount⟩) := by
  unfold placeBet
  rw [placeBetCheck_eq_firstFailingCheck]

/-- The running fold of getTotalBetAmount equals the sum of the amounts. -/
theorem totalBetAmount_eq_sum (bets : List Bet) :
    totalBetAmount bets = (bets.map Bet.amount).sum := by
  suffices h : ∀ init : ℚ, bets.foldl (fun total bet => total + bet.amount) init =
      init + (bets.map Bet.amount).sum by
    simpa using h 0
  induction bets with
  | nil => intro init; simp
  | cons b rest ih =>
    intro init
    simp only [List.foldl_cons, List.map_cons, List.sum_cons, ih]
    ring

/-- Total of a cons ledger. -/
theorem totalBetAmount_cons (b : Bet) (rest : List Bet) :
    totalBetAmount (b :: rest) = b.amount + totalBetAmount rest := by
  simp [totalBetAmount_eq_sum]

/-- Total of an appended ledger. -/
theorem totalBetAmount_append (l1 l2 : List Bet) :
    totalBetAmount (l1 ++ l2) = totalBetAmount l1 + totalBetAmount l2 := by
  simp [totalBetAmount_eq_sum]

/-- A ledger of bets each at least the minimum stake has a nonnegative
total. -/
theorem totalBetAmount_nonneg (bets : List Bet)
    (h : ∀ b ∈ bets, minBet ≤ b.amount) : 0 ≤ totalBetAmount bets := by
  rw [totalBetAmount_eq_sum]
  apply List.sum_nonneg
  intro x hx
  obtain ⟨b, hb, rfl⟩ := List.mem_map.mp hx
  have := h b hb
  unfold minBet at this
  linarith

/-- When every bet of a batch passes the type and amount checks, the
combined batch fits under the table maximum, and the available balance
covers the combined batch, the re-placement loop places every bet: the
final ledger is the original ledger followed by the whole batch, in
order, and every placement reports success. -/
theorem placeBets_all_valid (bs : List Bet) (st : GState)
    (hval : ∀ b ∈ bs, validateBet b.type b.numbers = none ∧
      minBet ≤ b.amount ∧ b.amount ≤ maxBet)
    (hbal : totalBetAmount bs ≤ st.balance - totalBetAmount st.currentBets)
    (hmax : totalBetAmount st.currentBets + totalBetAmount bs ≤ tableMax) :
    placeBets st bs = ({ st with currentBets := st.currentBets ++ bs }, bs) := by
  induction bs generalizing st with
  | nil =>
    simp [placeBets]
  | cons b rest ih =>
    have hb := hval b (List.mem_cons_self b rest)
    have hrest : ∀ x ∈ rest, validateBet x.type x.numbers = none ∧
        minBet ≤ x.amount ∧ x.amount ≤ maxBet :=
      fun x hx => hval x (List.mem_cons_of_mem b hx)
    have hrestpos : 0 ≤ totalBetAmount rest :=
      totalBetAmount_nonneg rest (fun x hx => (hrest x hx).2.1)
    rw [totalBetAmount_cons] at hbal hmax
    have hcheck : placeBetCheck b.type b.numbers b.amount
        (totalBetAmount st.currentBets) st.balance = none := by
      unfold placeBetCheck validateBetAmount validateBalance validateTableMax
      rw [hb.1]
      rw [if_neg (not_lt.mpr hb.2.1), if_neg (not_lt.mpr hb.2.2),
        if_neg (not_lt.mpr (by linarith)), if_neg (not_lt.mpr (by linarith))]
    have hplace : placeBet st b.type b.numbers b.amount =
        ({ st with currentBets := st.currentBets ++ [b] }, Except.ok b) := by
      unfold placeBet
      rw [hcheck]
    rw [placeBets, hplace]
    have hih := ih { st with currentBets := st.currentBets ++ [b] }
      hrest
      (by
        simp only [totalBetAmount_append]
        rw [totalBetAmount_cons]
        simp only [totalBetAmount_eq_sum, List.map_nil, List.sum_nil]
        simp only [totalBetAmount_eq_sum] at hbal
        linarith)
      (by
        simp only [totalBetAmount_append]
        rw [totalBetAmount_cons]
        simp only [totalBetAmount_eq_sum, List.map_nil, List.sum_nil]
        simp only [totalBetAmount_eq_sum] at hmax
        linarith)
    dsimp only
    rw [hih]
    simp [List.append_assoc]

/-- Total of the empty ledger. -/
theorem totalBetAmount_nil : totalBetAmount ([] : List Bet) = 0 := rfl

/-- When every placement of a batch fails its validation pipeline, the
re-placement loop leaves the state untouched and collects nothing. -/
theorem placeBets_none_pass (bs : List Bet) (st : GState)
    (h : ∀ b ∈ bs, placeBetCheck b.type b.numbers b.amount
      (totalBetAmount st.currentBets) st.balance ≠ none) :
    placeBets st bs = (st, []) := by
  induction bs with
  | nil => rfl
  | cons b rest ih =>
    have hb := h b (List.mem_cons_self b rest)
    cases hc : placeBetCheck b.type b.numbers b.amount
        (totalBetAmount st.currentBets) st.balance with
    | none => exact absurd hc hb
    | some e =>
      rw [placeBets]
      unfold placeBet
      rw [hc]
      exact ih (fun x hx => h x (List.mem_cons_of_mem b hx))

/-- Claim C3 (amended): doubling is all-or-nothing only with respect to
the affordability pre-check.  With a non-empty ledger, when the combined
doubling amount exceeds the available balance no new bet is placed and
the failure is the insufficient-balance reason, the state unchanged; when
it is affordable every current bet is re-submitted through full placement
validation, so that whenever each duplicate passes validation — in
particular when the doubled total stays within the table maximum — one
identical new bet is appended per existing bet and the staked total
exactly doubles. -/
theorem doubleAllBets_behavior (st : GState) (hne : st.currentBets ≠ []) :
    (st.balance - totalBetAmount st.currentBets < totalBetAmount st.currentBets →
      doubleAllBets st = (st, .error .insufficientToDouble)) ∧
    (totalBetAmount st.currentBets ≤ st.balance - totalBetAmount st.currentBets →
      (∀ b ∈ st.currentBets, validateBet b.type b.numbers = none ∧
        minBet ≤ b.amount ∧ b.amount ≤ maxBet) →
      totalBetAmount st.currentBets + totalBetAmount st.currentBets ≤ tableMax →
      doubleAllBets st =
        ({ st with currentBets := st.currentBets ++ st.currentBets },
          .ok st.currentBets) ∧
      totalBetAmount (st.currentBets ++ st.currentBets) =
        2 * totalBetAmount st.currentBets) := by
  have hemp : ¬(st.currentBets.isEmpty = true) :=
    fun h => hne (List.isEmpty_iff.mp h)
  constructor
  · intro hlt
    have hcan : canAffordBet st (totalBetAmount st.currentBets) = false :=
      decide_eq_false (not_le.mpr hlt)
    unfold doubleAllBets
    rw [if_neg hemp, if_neg (by simp [hcan])]
  · intro hle hval hmax
    have hcan : canAffordBet st (totalBetAmount st.currentBets) = true :=
      decide_eq_true hle
    unfold doubleAllBets
    rw [if_neg hemp, if_pos hcan,
      placeBets_all_valid st.currentBets st hval hle hmax]
    exact ⟨rfl, by rw [totalBetAmount_append]; ring⟩

/-- A one-bet ledger state used as the concrete instance of doubling. -/
def doubleWitnessSt : GState := ⟨1000, [⟨"straight", [.num 17], 10⟩], []⟩

/-- Witness for the previous theorem: with balance 1000 and a single
straight bet of 10 on 17, doubling appends one identical bet. -/
theorem doubleAllBets_behavior_witness :
    doubleAllBets doubleWitnessSt =
      ({ doubleWitnessSt with
          currentBets := doubleWitnessSt.currentBets ++ doubleWitnessSt.currentBets },
        .ok doubleWitnessSt.currentBets) := by
  have hT : totalBetAmount doubleWitnessSt.currentBets = 10 := by
    simp [doubleWitnessSt, totalBetAmount_cons, totalBetAmount_nil]
  refine ((doubleAllBets_behavior doubleWitnessSt (by decide)).2 ?_ ?_ ?_).1
  · rw [hT]
    norm_num [doubleWitnessSt]
  · intro b hb
    simp only [doubleWitnessSt, List.mem_singleton] at hb
    subst hb
    exact ⟨by decide, by norm_num [minBet], by norm_num [maxBet]⟩
  · rw [hT]
    norm_num [tableMax]

/-- The maximum-size straight bet on 1 used in the doubling
counterexample. -/
def cexBet : Bet := ⟨"straight", [.num 1], 1000⟩

/-- A nine-bet ledger of maximum-size straight bets with ample balance:
the doubling pre-check passes, the first duplicate lands exactly on the
table maximum and every later duplicate is rejected by it. -/
def doubleCexSt : GState :=
  ⟨18000, [cexBet, cexBet, cexBet, cexBet, cexBet, cexBet, cexBet, cexBet, cexBet], []⟩

/-- Counterexample to claim C3 as stated: at this state the player can
afford the combined doubling amount, the operation reports success, yet
exactly one duplicate is appended — the ledger afterwards holds ten bets,
more than the original nine and fewer than the doubled eighteen — so the
operation placed only some of the duplicate bets. -/
theorem doubleAllBets_incomplete_cex :
    totalBetAmount doubleCexSt.currentBets ≤
      doubleCexSt.balance - totalBetAmount doubleCexSt.currentBets ∧
    doubleCexSt.currentBets.length = 9 ∧
    doubleAllBets doubleCexSt =
      ({ doubleCexSt with currentBets := doubleCexSt.currentBets ++ [cexBet] },
        .ok [cexBet]) ∧
    (doubleCexSt.currentBets ++ [cexBet]).length = 10 := by
  have hvb : validateBet ("straight") [Slot.num 1] = none := by decide
  have hT9 : totalBetAmount doubleCexSt.currentBets = 9000 := by
    simp [doubleCexSt, cexBet, totalBetAmount_cons, totalBetAmount_nil]
    norm_num
  have hbal : doubleCexSt.balance = 18000 := rfl
  have hcheck1 : placeBetCheck cexBet.type cexBet.numbers cexBet.amount
      (totalBetAmount doubleCexSt.currentBets) doubleCexSt.balance = none := by
    rw [hT9, hbal]
    show placeBetCheck ("straight") [Slot.num 1] 1000 9000 18000 = none
    unfold placeBetCheck validateBetAmount validateBalance validateTableMax
    rw [hvb, if_neg (by norm_num [minBet]), if_neg (by norm_num [maxBet]),
      if_neg (by norm_num), if_neg (by norm_num [tableMax])]
  have hplace1 : placeBet doubleCexSt cexBet.type cexBet.numbers cexBet.amount =
      ({ doubleCexSt with currentBets := doubleCexSt.currentBets ++ [cexBet] },
        Except.ok cexBet) := by
    unfold placeBet
    rw [hcheck1]
  have hT10 : totalBetAmount (doubleCexSt.currentBets ++ [cexBet]) = 10000 := by
    rw [totalBetAmount_append, hT9]
    simp [cexBet, totalBetAmount_cons, totalBetAmount_nil]
    norm_num
  have hcheckFail : placeBetCheck cexBet.type cexBet.numbers cexBet.amount
      (totalBetAmount (doubleCexSt.currentBets ++ [cexBet])) doubleCexSt.balance =
      some BetError.tableMaxExceeded := by
    rw [hT10, hbal]
    show placeBetCheck ("straight") [Slot.num 1] 1000 10000 18000 =
      some BetError.tableMaxExceeded
    unfold placeBetCheck validateBetAmount validateBalance validateTableMax
    rw [hvb, if_neg (by norm_num [minBet]), if_neg (by norm_num [maxBet]),
      if_neg (by norm_num), if_pos (by norm_num [tableMax])]
  have hloop : placeBets doubleCexSt doubleCexSt.currentBets =
      ({ doubleCexSt with currentBets := doubleCexSt.currentBets ++ [cexBet] },
        [cexBet]) := by
    show placeBets doubleCexSt
      (cexBet :: [cexBet, cexBet, cexBet, cexBet, cexBet, cexBet, cexBet, cexBet]) = _
    rw [placeBets, hplace1]
    dsimp only
    rw [placeBets_none_pass _ _ (by
      intro b hb
      have hbeq : b = cexBet := by simpa using hb
      subst hbeq
      rw [hcheckFail]
      exact fun h => Option.noConfusion h)]
  refine ⟨?_, by decide, ?_, by decide⟩
  · rw [hT9, hbal]
    norm_num
  · have hcan : canAffordBet doubleCexSt (totalBetAmount doubleCexSt.currentBets) = true := by
      apply decide_eq_true
      rw [hT9, hbal]
      norm_num
    unfold doubleAllBets
    rw [if_neg (by decide), if_pos hcan, hloop]

/-- Claim C4 (amended): repeating the last round fails with the
no-history reason iff the history is empty or its most recent entry holds
no bets; otherwise, with T the total of the recorded bets, when the
available balance (balance minus the ledger total before clearing) is
below T nothing is placed and the state is unchanged with the
insufficient-balance reason, and when the available balance covers T —
the recorded bets passing placement validation and fitting the table
maximum, as bets recorded from validated rounds do — the ledger is
cleared and every recorded bet is re-placed, leaving exactly the bets of
that entry. -/
theorem repeatLastBets_behavior (st : GState) :
    (st.history = [] → repeatLastBets st = (st, .error .noHistoryToRepeat)) ∧
    (∀ entry rest, st.history = entry :: rest →
      ((entry.bets = [] → repeatLastBets st = (st, .error .noBetsInLastSpin)) ∧
       (entry.bets ≠ [] →
         st.balance - totalBetAmount st.currentBets < totalBetAmount entry.bets →
         repeatLastBets st = (st, .error .insufficientToRepeat)) ∧
       (entry.bets ≠ [] →
         totalBetAmount entry.bets ≤ st.balance - totalBetAmount st.currentBets →
         0 ≤ totalBetAmount st.currentBets →
         (∀ b ∈ entry.bets, validateBet b.type b.numbers = none ∧
           minBet ≤ b.amount ∧ b.amount ≤ maxBet) →
         totalBetAmount entry.bets ≤ tableMax →
         repeatLastBets st =
           ({ st with currentBets := entry.bets }, .ok entry.bets)))) := by
  constructor
  · intro h
    unfold repeatLastBets
    rw [h]
  · intro entry rest hh
    refine ⟨?_, ?_, ?_⟩
    · intro hbe
      unfold repeatLastBets
      rw [hh]
      dsimp only
      rw [if_pos (by rw [hbe]; rfl)]
    · intro hbne hlt
      have hcan : canAffordBet st (totalBetAmount entry.bets) = false :=
        decide_eq_false (not_le.mpr hlt)
      unfold repeatLastBets
      rw [hh]
      dsimp only
      rw [if_neg (fun h => hbne (List.isEmpty_iff.mp h)), if_neg (by simp [hcan])]
    · intro hbne hle h0 hval hmax
      have hcan : canAffordBet st (totalBetAmount entry.bets) = true :=
        decide_eq_true hle
      unfold repeatLastBets
      rw [hh]
      dsimp only
      rw [if_neg (fun h => hbne (List.isEmpty_iff.mp h)), if_pos hcan]
      have hplace := placeBets_all_valid entry.bets
        { st with currentBets := [], history := entry :: rest } hval
        (by
          dsimp only
          rw [totalBetAmount_nil]
          linarith)
        (by
          dsimp only
          rw [totalBetAmount_nil]
          linarith)
      rw [hplace]
      simp

/-- A state whose last round recorded one straight bet of 10 on 17, with
an empty current ledger and balance 1000. -/
def repeatWitnessSt : GState :=
  ⟨1000, [], [⟨[⟨"straight", [.num 17], 10⟩]⟩]⟩

/-- Witness for the previous theorem: repeating re-places exactly the
recorded bet of the most recent entry. -/
theorem repeatLastBets_behavior_witness :
    repeatLastBets repeatWitnessSt =
      ({ repeatWitnessSt with currentBets := [⟨"straight", [.num 17], 10⟩] },
        .ok [⟨"straight", [.num 17], 10⟩]) := by
  have h := ((repeatLastBets_behavior repeatWitnessSt).2
    ⟨[⟨"straight", [.num 17], 10⟩]⟩ [] rfl).2.2
  have hT : totalBetAmount [(⟨"straight", [.num 17], 10⟩ : Bet)] = 10 := by
    rw [totalBetAmount_cons, totalBetAmount_nil]
    norm_num
  refine h (by decide) ?_ ?_ ?_ ?_
  · show totalBetAmount [(⟨"straight", [.num 17], 10⟩ : Bet)] ≤
      repeatWitnessSt.balance - totalBetAmount repeatWitnessSt.currentBets
    rw [hT]
    show (10 : ℚ) ≤ 1000 - totalBetAmount []
    rw [totalBetAmount_nil]
    norm_num
  · show (0 : ℚ) ≤ totalBetAmount repeatWitnessSt.currentBets
    rw [show repeatWitnessSt.currentBets = [] from rfl, totalBetAmount_nil]
  · intro b hb
    simp only [List.mem_singleton] at hb
    subst hb
    exact ⟨by decide, by norm_num [minBet], by norm_num [maxBet]⟩
  · rw [hT]
    norm_num [tableMax]

/-- A state where the balance (100) covers the recorded total (80) but
the available balance after the 60 already on the table (40) does not. -/
def repeatCexSt : GState :=
  ⟨100, [⟨"straight", [.num 1], 60⟩], [⟨[⟨"straight", [.num 2], 80⟩]⟩]⟩

/-- Counterexample to claim C4 as stated: the balance is at least the
total T of the bets of the most recent history entry, yet the operation
fails with the insufficient-balance reason and re-places nothing, because
the source checks affordability against the available balance — balance
minus the current ledger total, before clearing — not against the
balance. -/
theorem repeatLastBets_balance_cex :
    repeatCexSt.history = [⟨[⟨"straight", [.num 2], 80⟩]⟩] ∧
    totalBetAmount [(⟨"straight", [.num 2], 80⟩ : Bet)] ≤ repeatCexSt.balance ∧
    repeatLastBets repeatCexSt = (repeatCexSt, .error .insufficientToRepeat) := by
  have hT80 : totalBetAmount [(⟨"straight", [.num 2], 80⟩ : Bet)] = 80 := by
    rw [totalBetAmount_cons, totalBetAmount_nil]
    norm_num
  have hT60 : totalBetAmount repeatCexSt.currentBets = 60 := by
    show totalBetAmount [(⟨"straight", [.num 1], 60⟩ : Bet)] = 60
    rw [totalBetAmount_cons, totalBetAmount_nil]
    norm_num
  refine ⟨rfl, ?_, ?_⟩
  · rw [hT80]
    show (80 : ℚ) ≤ 100
    norm_num
  · have hcan : canAffordBet repeatCexSt
        (totalBetAmount [(⟨"straight", [.num 2], 80⟩ : Bet)]) = false := by
      apply decide_eq_false
      rw [hT80]
      show ¬((80 : ℚ) ≤ repeatCexSt.balance - totalBetAmount repeatCexSt.currentBets)
      rw [hT60]
      show ¬((80 : ℚ) ≤ 100 - 60)
      norm_num
    unfold repeatLastBets
    rw [show repeatCexSt.history = [⟨[⟨"straight", [.num 2], 80⟩]⟩] from rfl]
    dsimp only
    rw [if_neg (by simp), if_neg (by simp [hcan])]
